import Mathlib

/-!
Verification of the turtal DCB event store core: the criteria/append-condition
model, the two backend query compilers (SQLite and PostgreSQL), and the
SQLite store append/read algorithms, embedded shallowly from the
TypeScript sources.
-/

namespace Turtal

/-- A domain event as supplied by the caller to `append`
(src/core/event-store/domain-event.ts).  The payload goes through
JSON.stringify before storage; we keep it abstract as a string. -/
structure DomainEvent where
  id : String
  type : String
  payload : String
  tags : List String
deriving Repr, DecidableEq

/-- One committed row of the `events` table together with its rows of the
`event_tags` side table (equivalently, for the Postgres schema, its stored
tag array). -/
structure StoredEvent where
  id : String
  position : Nat
  type : String
  payload : String
  tags : List String
deriving Repr, DecidableEq

/-- A sequenced event as returned by `events()` after row reassembly. -/
structure SequencedEvent where
  id : String
  position : Nat
  type : String
  payload : String
  tags : List String
deriving Repr, DecidableEq

/-- `EventCriteria` (src/core/event-store/event-criteria.ts): two accumulated
lists of event types and tags. -/
structure EventCriteria where
  types : List String
  tags : List String
deriving Repr, DecidableEq

/-- `EventCriteria.isEmpty`: no types and no tags accumulated. -/
def EventCriteria.isEmpty (c : EventCriteria) : Bool :=
  c.types.isEmpty && c.tags.isEmpty

/-- `EventCriteria.forTypes(...types)`: pushes the given types onto the
accumulated type list. -/
def EventCriteria.forTypes (c : EventCriteria) (ts : List String) : EventCriteria :=
  EventCriteria.mk (c.types ++ ts) c.tags

/-- `EventCriteria.forTags(...tags)`: pushes the given tags onto the
accumulated tag list. -/
def EventCriteria.forTags (c : EventCriteria) (gs : List String) : EventCriteria :=
  EventCriteria.mk c.types (c.tags ++ gs)

/-- `AppendCondition` (src/core/event-store/append-condition.ts): a criteria
plus the position cursor already observed by the caller. -/
structure AppendCondition where
  criteria : EventCriteria
  after : Nat
deriving Repr, DecidableEq

/-- `AppendCondition.empty()`: empty criteria, cursor 0. -/
def AppendCondition.empty : AppendCondition :=
  AppendCondition.mk (EventCriteria.mk [] []) 0

/-- `AppendCondition.forCriteria(criteria, after = 0)`: if the criteria is
empty the position is ignored and the canonical empty condition is returned. -/
def AppendCondition.forCriteria (c : EventCriteria) (after : Nat) : AppendCondition :=
  if c.isEmpty then AppendCondition.empty else AppendCondition.mk c after

/-- `AppendCondition.isEmpty()`. -/
def AppendCondition.isEmpty (ac : AppendCondition) : Bool :=
  ac.criteria.isEmpty

/-- A value bound as a query parameter: a plain string, a string array
(Postgres `text[]` parameter), or an integer position. -/
inductive SqlValue where
  | str (s : String)
  | strList (l : List String)
  | nat (n : Nat)
deriving Repr, DecidableEq

/-- Compiler output: SQL text plus the flat ordered list of bound values
(`SqliteParameterizedQuery` / `ParameterizedQuery` in the sources). -/
structure ParameterizedQuery where
  text : String
  values : List SqlValue
deriving Repr, DecidableEq

/-- The fixed per-tag existence clause emitted by the SQLite builder. -/
def sqliteTagClauseText : String :=
  "EXISTS (SELECT 1 FROM event_tags WHERE event_position = events.position AND tag = ?)"

/-- `SqliteQueryBuilder.build()` (sqlite-query-builder, parameterized
variant): a types `IN` clause with one `?` per type, one existence clause per
tag, and a position clause when `after` is non-zero; values are pushed in the
same order the placeholders appear. -/
def SqliteQueryBuilder.build (types tags : List String) (after : Nat) : ParameterizedQuery :=
  let typeClauses : List String :=
    if types.isEmpty then []
    else ["events.type IN (" ++ String.intercalate "," (types.map fun _ => "?") ++ ")"]
  let tagClauses : List String := tags.map fun _ => sqliteTagClauseText
  let posClauses : List String := if after == 0 then [] else ["events.position > ?"]
  let clauses := typeClauses ++ tagClauses ++ posClauses
  let vals : List SqlValue :=
    (if types.isEmpty then [] else types.map SqlValue.str)
      ++ tags.map SqlValue.str
      ++ (if after == 0 then [] else [SqlValue.nat after])
  ParameterizedQuery.mk
    (if clauses.isEmpty then "" else "WHERE " ++ String.intercalate " AND " clauses)
    vals

/-- `PostgresQueryBuilder.build()` (postgres-query-builder): a `type = ANY`
clause over one array parameter, an array-containment clause `tags @> $n`
over one array parameter, and a position clause when `after` is non-zero;
`paramIndex` counts up over the clauses actually present. -/
def PostgresQueryBuilder.build (types tags : List String) (after : Nat) : ParameterizedQuery :=
  let p1 : Nat := 1
  let typeClauses : List String :=
    if types.isEmpty then [] else ["type = ANY($" ++ toString p1 ++ ")"]
  let p2 : Nat := if types.isEmpty then p1 else p1 + 1
  let tagClauses : List String :=
    if tags.isEmpty then [] else ["tags @> $" ++ toString p2]
  let p3 : Nat := if tags.isEmpty then p2 else p2 + 1
  let posClauses : List String :=
    if after == 0 then [] else ["position > $" ++ toString p3]
  let clauses := typeClauses ++ tagClauses ++ posClauses
  let vals : List SqlValue :=
    (if types.isEmpty then [] else [SqlValue.strList types])
      ++ (if tags.isEmpty then [] else [SqlValue.strList tags])
      ++ (if after == 0 then [] else [SqlValue.nat after])
  ParameterizedQuery.mk
    (if clauses.isEmpty then "" else "WHERE " ++ String.intercalate " AND " clauses)
    vals

/-- The single-quote character, written by code point to keep it out of
string literals. -/
def squote : String := String.singleton (Char.ofNat 39)

/-- `SqliteQueryGenerator.typesClause` (sqlite-query-generator.ts, legacy
string-interpolating variant): quotes each type name directly into the SQL
text. -/
def SqliteQueryGenerator.typesClause (types : List String) : String :=
  if types.isEmpty then ""
  else "events.type IN ("
    ++ String.intercalate "," (types.map fun t => squote ++ t ++ squote) ++ ")"

/-- `SqliteQueryGenerator.tagsClause`: quotes each tag value directly into
one existence subquery per tag. -/
def SqliteQueryGenerator.tagsClause (tags : List String) : String :=
  if tags.isEmpty then ""
  else String.intercalate " AND " (tags.map fun t =>
    "EXISTS (SELECT 1 FROM event_tags WHERE event_position = events.position AND tag = "
      ++ squote ++ t ++ squote ++ ")")

/-- `SqliteQueryGenerator.positionAfterClause`. -/
def SqliteQueryGenerator.positionAfterClause (after : Nat) : String :=
  if after == 0 then "" else "events.position > " ++ toString after

/-- `SqliteQueryGenerator.generate`: the non-empty clauses joined with AND. -/
def SqliteQueryGenerator.generate (types tags : List String) (after : Nat) : String :=
  String.intercalate " AND "
    (([SqliteQueryGenerator.typesClause types,
       SqliteQueryGenerator.tagsClause tags,
       SqliteQueryGenerator.positionAfterClause after]).filter fun s => !s.isEmpty)

/-- Row semantics of the WHERE text emitted by `SqliteQueryBuilder.build`:
the types clause (membership, present iff some type was given), one
existence test per tag against the event_tags rows of the event, and the
position clause (present iff `after` is non-zero). -/
def sqliteRowMatches (types tags : List String) (after : Nat) (e : StoredEvent) : Bool :=
  (types.isEmpty || types.contains e.type)
    && tags.all (fun t => e.tags.contains t)
    && (after == 0 || decide (after < e.position))

/-- Row semantics of the WHERE text emitted by `PostgresQueryBuilder.build`:
the types clause, a single array-containment test (present iff some tag was
given), and the position clause. -/
def postgresRowMatches (types tags : List String) (after : Nat) (e : StoredEvent) : Bool :=
  (types.isEmpty || types.contains e.type)
    && (tags.isEmpty || tags.all (fun t => e.tags.contains t))
    && (after == 0 || decide (after < e.position))

/-- Matching a bare criteria (the §4.1 predicate, i.e. the compiled filter
with no position bound). -/
def criteriaMatches (c : EventCriteria) (after : Nat) (e : StoredEvent) : Bool :=
  sqliteRowMatches c.types c.tags after e

/-- The two error kinds an append can surface: the append-condition
rejection (`AppendConditionError`) and a uniqueness-constraint violation
raised by the engine (duplicate event id, duplicate tag row). -/
inductive StoreError where
  | appendConditionError
  | uniqueConstraintError
deriving Repr, DecidableEq

/-- Largest position present in the log (0 when empty); the next
auto-incremented position is one past it. -/
def maxPosition (s : List StoredEvent) : Nat :=
  s.foldl (fun m e => Nat.max m e.position) 0

/-- `SqliteEventStore.appendShouldFail`: false for the empty condition,
otherwise true iff some stored row satisfies the compiled condition filter
(criteria plus cursor). -/
def SqliteEventStore.appendShouldFail (s : List StoredEvent) (ac : AppendCondition) : Bool :=
  if ac.isEmpty then false
  else s.any (sqliteRowMatches ac.criteria.types ac.criteria.tags ac.after)

/-- The comparison key of the `id TEXT UNIQUE COLLATE NOCASE` column: NOCASE
folds the ASCII letters A-Z, which is exactly `Char.toLower` on each
character. -/
def nocaseId (s : String) : List Char :=
  s.data.map Char.toLower

/-- One `insertEvent` call: fails on a duplicate id (the `id` column is
UNIQUE COLLATE NOCASE, i.e. ASCII case-insensitive) or on a duplicate tag
within the event (`event_tags` has PRIMARY KEY (event_position, tag));
otherwise appends the row at the next position. -/
def insertEvent (s : List StoredEvent) (e : DomainEvent) : Except StoreError (List StoredEvent) :=
  if s.any (fun r => nocaseId r.id == nocaseId e.id) then
    Except.error StoreError.uniqueConstraintError
  else if e.tags.Nodup then
    Except.ok (s ++ [StoredEvent.mk e.id (maxPosition s + 1) e.type e.payload e.tags])
  else
    Except.error StoreError.uniqueConstraintError

/-- The insert loop of the append transaction: events are inserted in input
order; the first failure aborts the loop.  The returned state is the
working state of the transaction only; on failure it is discarded by
rollback. -/
def insertBatch (s : List StoredEvent) : List DomainEvent → List StoredEvent × Option StoreError
  | [] => (s, none)
  | e :: rest =>
    match insertEvent s e with
    | Except.ok s2 => insertBatch s2 rest
    | Except.error err => (s, some err)

/-- `SqliteEventStore.append`: inside one transaction, run the condition
check, then insert every event; any error rolls the transaction back, so an
error result carries no state. -/
def SqliteEventStore.append (s : List StoredEvent) (evs : List DomainEvent)
    (ac : AppendCondition) : Except StoreError (List StoredEvent) :=
  if SqliteEventStore.appendShouldFail s ac then
    Except.error StoreError.appendConditionError
  else
    match insertBatch s evs with
    | (_, some err) => Except.error err
    | (s2, none) => Except.ok s2

/-- The log state visible after an `append` call: the new state on success,
the unchanged previous state when the transaction rolled back. -/
def runAppend (s : List StoredEvent) (evs : List DomainEvent) (ac : AppendCondition) :
    List StoredEvent :=
  match SqliteEventStore.append s evs ac with
  | Except.ok s2 => s2
  | Except.error _ => s

/-- Visible log state after a whole sequence of append calls (each call a
batch plus a condition), starting from `s`. -/
def runCalls (s : List StoredEvent) : List (List DomainEvent × AppendCondition) → List StoredEvent
  | [] => s
  | c :: rest => runCalls (runAppend s c.1 c.2) rest

/-- The comma character, by code point. -/
def comma : Char := Char.ofNat 44

/-- `GROUP_CONCAT(t.tag)` over the LEFT-JOINed tag rows of one event: NULL
when the event has no tags, otherwise the tags joined by commas (represented
as the character list of the aggregate string). -/
def groupConcatTags (tags : List String) : Option (List Char) :=
  if tags.isEmpty then none
  else some (List.intercalate [comma] (tags.map String.toList))

/-- The row-mapping step of `events()`: the conditional tests the aggregate
for truthiness, so both NULL (no tag rows) and the empty string (a single
empty-string tag row) map to the empty tags array; any other aggregate is
split at every comma. -/
def splitTags : Option (List Char) → List String
  | none => []
  | some cs => if cs.isEmpty then [] else (cs.splitOn comma).map fun l => String.mk l

/-- Reassembling one read row into a `SequencedEvent`. -/
def SqliteEventStore.readEvent (r : StoredEvent) : SequencedEvent :=
  SequencedEvent.mk r.id r.position r.type r.payload
    (splitTags (groupConcatTags r.tags))

/-- `SqliteEventStore.events(criteria)`: all rows matching the compiled
criteria filter (no position bound), in position order, reassembled. -/
def SqliteEventStore.events (s : List StoredEvent) (c : EventCriteria) : List SequencedEvent :=
  (s.filter (sqliteRowMatches c.types c.tags 0)).map SqliteEventStore.readEvent

/-- The stored rows an append produces for a batch, positions assigned
consecutively from `base + 1` in input order. -/
def assignPositions (base : Nat) : List DomainEvent → List StoredEvent
  | [] => []
  | e :: rest =>
    StoredEvent.mk e.id (base + 1) e.type e.payload e.tags :: assignPositions (base + 1) rest

/-- The positions column of the log, in storage order. -/
def positions (s : List StoredEvent) : List Nat :=
  s.map fun e => e.position

/-- A `SequencedEvent` carrying exactly the tag list of the stored row. -/
def sequencedOf (r : StoredEvent) : SequencedEvent :=
  SequencedEvent.mk r.id r.position r.type r.payload r.tags

/-! Helper lemmas about insertion and positions -/

theorem maxPosition_append (s : List StoredEvent) (e : StoredEvent) :
    maxPosition (s ++ [e]) = Nat.max (maxPosition s) e.position := by
  simp [maxPosition, List.foldl_append]

theorem insertEvent_ok_eq {s : List StoredEvent} {e : DomainEvent} {s2 : List StoredEvent}
    (h : insertEvent s e = Except.ok s2) :
    s2 = s ++ [StoredEvent.mk e.id (maxPosition s + 1) e.type e.payload e.tags] := by
  unfold insertEvent at h
  split at h
  · cases h
  · split at h
    · exact (Except.ok.inj h).symm
    · cases h

theorem insertBatch_none_eq : ∀ (evs : List DomainEvent) (s s2 : List StoredEvent),
    insertBatch s evs = (s2, none) →
    s2 = s ++ assignPositions (maxPosition s) evs := by
  intro evs
  induction evs with
  | nil =>
    intro s s2 h
    simp only [insertBatch, Prod.mk.injEq] at h
    simp [assignPositions, h.1.symm]
  | cons e rest ih =>
    intro s s2 h
    simp only [insertBatch] at h
    cases hie : insertEvent s e with
    | error err => rw [hie] at h; simp at h
    | ok s1 =>
      rw [hie] at h
      have hs1 := insertEvent_ok_eq hie
      have h2 := ih s1 s2 h
      subst hs1
      rw [maxPosition_append] at h2
      simp only [assignPositions]
      rw [h2]
      have hmax : Nat.max (maxPosition s)
          (StoredEvent.mk e.id (maxPosition s + 1) e.type e.payload e.tags).position
            = maxPosition s + 1 := by
        simp
      rw [hmax]
      simp

theorem insertBatch_error_kind : ∀ (evs : List DomainEvent) (s s2 : List StoredEvent)
    (err : StoreError), insertBatch s evs = (s2, some err) →
    err = StoreError.uniqueConstraintError := by
  intro evs
  induction evs with
  | nil => intro s s2 err h; simp [insertBatch] at h
  | cons e rest ih =>
    intro s s2 err h
    simp only [insertBatch] at h
    cases hie : insertEvent s e with
    | ok s1 => rw [hie] at h; exact ih s1 s2 err h
    | error e2 =>
      rw [hie] at h
      have he2 : e2 = StoreError.uniqueConstraintError := by
        unfold insertEvent at hie
        split at hie
        · exact (Except.error.inj hie).symm
        · split at hie
          · cases hie
          · exact (Except.error.inj hie).symm
      simp only [Prod.mk.injEq, Option.some.injEq] at h
      rw [← h.2, he2]

theorem positions_append (s t : List StoredEvent) :
    positions (s ++ t) = positions s ++ positions t := by
  simp [positions]

theorem positions_assignPositions : ∀ (evs : List DomainEvent) (base : Nat),
    positions (assignPositions base evs) = List.range' (base + 1) evs.length := by
  intro evs
  induction evs with
  | nil => intro base; rfl
  | cons e rest ih =>
    intro base
    simp only [assignPositions, positions, List.map_cons, List.length_cons]
    rw [List.range'_succ]
    exact congrArg (List.cons (base + 1)) (ih (base + 1))

theorem length_assignPositions (evs : List DomainEvent) (base : Nat) :
    (assignPositions base evs).length = evs.length := by
  have h := congrArg List.length (positions_assignPositions evs base)
  simpa [positions] using h

theorem foldl_max_range' : ∀ n : Nat, (List.range' 1 n).foldl Nat.max 0 = n := by
  intro n
  induction n with
  | zero => rfl
  | succ n ih =>
    rw [List.range'_1_concat, List.foldl_append, ih]
    simp only [List.foldl_cons, List.foldl_nil]
    have hx : Nat.max n (1 + n) = 1 + n := Nat.max_eq_right (by omega)
    rw [hx]
    omega

theorem maxPosition_eq_length {s : List StoredEvent}
    (h : positions s = List.range' 1 s.length) : maxPosition s = s.length := by
  have hm : maxPosition s = (positions s).foldl Nat.max 0 := by
    simp [maxPosition, positions, List.foldl_map]
  rw [hm, h, foldl_max_range']

theorem runAppend_preserves_contiguous (s : List StoredEvent) (evs : List DomainEvent)
    (ac : AppendCondition) (h : positions s = List.range' 1 s.length) :
    positions (runAppend s evs ac) = List.range' 1 (runAppend s evs ac).length := by
  unfold runAppend
  cases hap : SqliteEventStore.append s evs ac with
  | error e => exact h
  | ok s2 =>
    unfold SqliteEventStore.append at hap
    split at hap
    · cases hap
    · rcases hib : insertBatch s evs with ⟨s3, oerr⟩
      rw [hib] at hap
      cases oerr with
      | some err => cases hap
      | none =>
        cases hap
        have h2 := insertBatch_none_eq evs s s2 hib
        subst h2
        rw [positions_append, positions_assignPositions, h,
          maxPosition_eq_length h, List.length_append, length_assignPositions]
        have hr := List.range'_append_1 1 s.length evs.length
        rw [Nat.add_comm 1 s.length] at hr
        rw [hr]
        exact congrArg (List.range' 1) (Nat.add_comm evs.length s.length)

/-! Claim theorems -/

/-- C2: every `append` call is atomic: on success the log is exactly the old
log followed by the whole batch, in input order, at the next consecutive
positions; on any error (condition rejection or a constraint violation
midway through the batch) the visible log state is exactly the state before
the call. -/
theorem append_atomic (s : List StoredEvent) (evs : List DomainEvent) (ac : AppendCondition) :
    (∀ s2, SqliteEventStore.append s evs ac = Except.ok s2 →
      s2 = s ++ assignPositions (maxPosition s) evs) ∧
    (∀ err, SqliteEventStore.append s evs ac = Except.error err →
      runAppend s evs ac = s) := by
  constructor
  · intro s2 h
    unfold SqliteEventStore.append at h
    split at h
    · cases h
    · rcases hib : insertBatch s evs with ⟨s3, oerr⟩
      rw [hib] at h
      cases oerr with
      | some err => cases h
      | none =>
        cases h
        exact insertBatch_none_eq evs s s2 hib
  · intro err h
    unfold runAppend
    rw [h]

/-- Witness for C2: a successful unconditional append of one event onto the
empty log yields exactly that event at position 1, and a rejected
conditional append leaves the one-event log unchanged. -/
theorem append_atomic_witness :
    ([StoredEvent.mk "a" 1 "T" "p" []] : List StoredEvent)
      = [] ++ assignPositions (maxPosition []) [DomainEvent.mk "a" "T" "p" []] ∧
    runAppend [StoredEvent.mk "a" 1 "T" "p" ["x"]] [DomainEvent.mk "b" "T" "q" []]
        (AppendCondition.forCriteria (EventCriteria.mk ["T"] []) 0)
      = [StoredEvent.mk "a" 1 "T" "p" ["x"]] := by
  constructor
  · exact (append_atomic [] [DomainEvent.mk "a" "T" "p" []] AppendCondition.empty).1 _ rfl
  · exact (append_atomic [StoredEvent.mk "a" 1 "T" "p" ["x"]] [DomainEvent.mk "b" "T" "q" []]
      (AppendCondition.forCriteria (EventCriteria.mk ["T"] []) 0)).2
      StoreError.appendConditionError rfl

/-- C6: starting from an empty store, after any sequence of append calls
(successful, rejected, or failed in any interleaving) the stored events
occupy exactly the contiguous positions 1..N in storage order: no gaps, no
repeats, starting at 1. -/
theorem store_positions_contiguous (calls : List (List DomainEvent × AppendCondition)) :
    positions (runCalls [] calls) = List.range' 1 (runCalls [] calls).length := by
  suffices h : ∀ (cs : List (List DomainEvent × AppendCondition)) (s : List StoredEvent),
      positions s = List.range' 1 s.length →
      positions (runCalls s cs) = List.range' 1 (runCalls s cs).length by
    exact h calls [] rfl
  intro cs
  induction cs with
  | nil => intro s hs; exact hs
  | cons c rest ih =>
    intro s hs
    exact ih (runAppend s c.1 c.2) (runAppend_preserves_contiguous s c.1 c.2 hs)

theorem sqliteRowMatches_after_iff (c : EventCriteria) (p : Nat) (e : StoredEvent)
    (h1 : 1 ≤ e.position) :
    sqliteRowMatches c.types c.tags p e = true ↔
      (criteriaMatches c 0 e = true ∧ p < e.position) := by
  unfold criteriaMatches sqliteRowMatches
  simp only [Bool.and_eq_true, Bool.or_eq_true, decide_eq_true_eq, beq_iff_eq]
  constructor
  · rintro ⟨hab, hor⟩
    refine ⟨⟨hab, Or.inl (by trivial)⟩, ?_⟩
    rcases hor with h0 | hlt
    · omega
    · exact hlt
  · rintro ⟨⟨hab, _⟩, hlt⟩
    exact ⟨hab, Or.inr hlt⟩

/-- C1: with a non-empty criteria `c` and a cursor `p`, `append` raises the
append-condition rejection iff some stored event matches `c` at a position
strictly greater than `p` (positions being at least 1, the default cursor 0
makes any stored match reject; a newest match at or below `p` lets the
append pass the condition check). -/
theorem conditional_append_rejects_iff (s : List StoredEvent) (evs : List DomainEvent)
    (c : EventCriteria) (p : Nat) (hc : c.isEmpty = false)
    (hpos : ∀ e ∈ s, 1 ≤ e.position) :
    (SqliteEventStore.append s evs (AppendCondition.forCriteria c p)
        = Except.error StoreError.appendConditionError)
      ↔ ∃ e ∈ s, criteriaMatches c 0 e = true ∧ p < e.position := by
  have hfc : AppendCondition.forCriteria c p = AppendCondition.mk c p := by
    unfold AppendCondition.forCriteria
    simp [hc]
  have hA : (SqliteEventStore.append s evs (AppendCondition.forCriteria c p)
      = Except.error StoreError.appendConditionError)
      ↔ SqliteEventStore.appendShouldFail s (AppendCondition.forCriteria c p) = true := by
    constructor
    · intro h
      by_contra hnot
      unfold SqliteEventStore.append at h
      rw [if_neg hnot] at h
      rcases hib : insertBatch s evs with ⟨s3, oerr⟩
      rw [hib] at h
      cases oerr with
      | none => cases h
      | some err =>
        have hk := insertBatch_error_kind evs s s3 err hib
        have h2 : StoreError.uniqueConstraintError = StoreError.appendConditionError := by
          rw [← hk]; exact Except.error.inj h
        cases h2
    · intro h
      unfold SqliteEventStore.append
      rw [if_pos h]
  rw [hA, hfc]
  have hB : SqliteEventStore.appendShouldFail s (AppendCondition.mk c p)
      = s.any (sqliteRowMatches c.types c.tags p) := by
    unfold SqliteEventStore.appendShouldFail AppendCondition.isEmpty
    simp [hc]
  rw [hB, List.any_eq_true]
  constructor
  · rintro ⟨e, he, hm⟩
    exact ⟨e, he, (sqliteRowMatches_after_iff c p e (hpos e he)).mp hm⟩
  · rintro ⟨e, he, hm⟩
    exact ⟨e, he, (sqliteRowMatches_after_iff c p e (hpos e he)).mpr hm⟩

/-- Witness for C1: a log holding one event of type T at position 1; a
condition on type T with cursor 0 rejects, as the right-hand side holds. -/
theorem conditional_append_rejects_iff_witness :
    (SqliteEventStore.append [StoredEvent.mk "a" 1 "T" "p" ["x"]]
        [DomainEvent.mk "b" "U" "q" []]
        (AppendCondition.forCriteria (EventCriteria.mk ["T"] []) 0)
        = Except.error StoreError.appendConditionError)
      ↔ ∃ e ∈ [StoredEvent.mk "a" 1 "T" "p" ["x"]],
          criteriaMatches (EventCriteria.mk ["T"] []) 0 e = true ∧ 0 < e.position :=
  conditional_append_rejects_iff [StoredEvent.mk "a" 1 "T" "p" ["x"]]
    [DomainEvent.mk "b" "U" "q" []] (EventCriteria.mk ["T"] []) 0
    (by decide) (by decide)

/-- C5: an append condition built from an empty criteria collapses to the
canonical empty condition (the supplied cursor is ignored), the condition
check is skipped, and the append is never rejected with the
append-condition error, whatever the log holds. -/
theorem empty_condition_never_rejects (s : List StoredEvent) (evs : List DomainEvent)
    (c : EventCriteria) (p : Nat) (hc : c.isEmpty = true) :
    AppendCondition.forCriteria c p = AppendCondition.empty ∧
    SqliteEventStore.appendShouldFail s (AppendCondition.forCriteria c p) = false ∧
    SqliteEventStore.append s evs (AppendCondition.forCriteria c p)
      ≠ Except.error StoreError.appendConditionError := by
  have hfc : AppendCondition.forCriteria c p = AppendCondition.empty := by
    unfold AppendCondition.forCriteria
    simp [hc]
  have hsf : SqliteEventStore.appendShouldFail s (AppendCondition.forCriteria c p) = false := by
    rw [hfc]
    rfl
  refine ⟨hfc, hsf, ?_⟩
  intro h
  unfold SqliteEventStore.append at h
  rw [if_neg (by simp [hsf])] at h
  rcases hib : insertBatch s evs with ⟨s3, oerr⟩
  rw [hib] at h
  cases oerr with
  | none => cases h
  | some err =>
    have hk := insertBatch_error_kind evs s s3 err hib
    have h2 : StoreError.uniqueConstraintError = StoreError.appendConditionError := by
      rw [← hk]; exact Except.error.inj h
    cases h2

/-- Witness for C5: appending onto a one-event log with a condition built
from the empty criteria and a non-zero cursor. -/
theorem empty_condition_never_rejects_witness :
    AppendCondition.forCriteria (EventCriteria.mk [] []) 7 = AppendCondition.empty ∧
    SqliteEventStore.appendShouldFail [StoredEvent.mk "a" 1 "T" "p" []]
        (AppendCondition.forCriteria (EventCriteria.mk [] []) 7) = false ∧
    SqliteEventStore.append [StoredEvent.mk "a" 1 "T" "p" []] [DomainEvent.mk "b" "U" "q" []]
        (AppendCondition.forCriteria (EventCriteria.mk [] []) 7)
      ≠ Except.error StoreError.appendConditionError :=
  empty_condition_never_rejects [StoredEvent.mk "a" 1 "T" "p" []]
    [DomainEvent.mk "b" "U" "q" []] (EventCriteria.mk [] []) 7 rfl

/-- C3: for a non-empty tag set `g`, the compiled tag filter of either
backend accepts an event exactly when the tag set of the event contains
every tag of `g` (superset test): an incomplete overlap fails, full overlap
with extra event tags passes. -/
theorem tags_criteria_superset (g : List String) (e : StoredEvent) (hg : g ≠ []) :
    ((sqliteRowMatches [] g 0 e = true) ↔ (∀ t ∈ g, t ∈ e.tags)) ∧
    ((postgresRowMatches [] g 0 e = true) ↔ (∀ t ∈ g, t ∈ e.tags)) := by
  rcases g with _ | ⟨t, g2⟩
  · cases hg rfl
  · constructor
    · simp [sqliteRowMatches]
    · simp [postgresRowMatches]

/-- Witness for C3: tag set of two tags against an event holding both plus
an extra tag. -/
theorem tags_criteria_superset_witness :
    ((sqliteRowMatches [] ["x", "y"] 0 (StoredEvent.mk "a" 1 "T" "p" ["y", "x", "z"]) = true)
        ↔ (∀ t ∈ ["x", "y"], t ∈ (StoredEvent.mk "a" 1 "T" "p" ["y", "x", "z"]).tags)) ∧
    ((postgresRowMatches [] ["x", "y"] 0 (StoredEvent.mk "a" 1 "T" "p" ["y", "x", "z"]) = true)
        ↔ (∀ t ∈ ["x", "y"], t ∈ (StoredEvent.mk "a" 1 "T" "p" ["y", "x", "z"]).tags)) :=
  tags_criteria_superset ["x", "y"] (StoredEvent.mk "a" 1 "T" "p" ["y", "x", "z"])
    (by decide)

/-- C7: the empty criteria with cursor 0 compiles, on both backends, to the
empty WHERE text with no bound values (no vacuous TRUE fragment) and its
filter semantics accept every event; when several clauses are present they
are joined with AND, absent clauses simply omitted. -/
theorem empty_criteria_compiles_to_no_predicate :
    SqliteQueryBuilder.build [] [] 0 = ParameterizedQuery.mk "" [] ∧
    PostgresQueryBuilder.build [] [] 0 = ParameterizedQuery.mk "" [] ∧
    (∀ e, sqliteRowMatches [] [] 0 e = true) ∧
    (∀ e, postgresRowMatches [] [] 0 e = true) ∧
    (SqliteQueryBuilder.build ["a", "b"] ["x"] 7).text
      = "WHERE events.type IN (?,?) AND " ++ sqliteTagClauseText
        ++ " AND events.position > ?" ∧
    (PostgresQueryBuilder.build ["a"] ["x"] 7).text
      = "WHERE type = ANY($1) AND tags @> $2 AND position > $3" :=
  ⟨rfl, rfl, fun _ => rfl, fun _ => rfl, rfl, rfl⟩

theorem row_semantics_pointwise_eq (types tags : List String) (after : Nat)
    (e : StoredEvent) :
    sqliteRowMatches types tags after e = postgresRowMatches types tags after e := by
  unfold sqliteRowMatches postgresRowMatches
  rcases tags with _ | ⟨t, ts⟩
  · rfl
  · rfl

/-- C8: the SQLite compilation (per-tag existence tests ANDed together) and
the Postgres compilation (single array-containment predicate) select exactly
the same events from any log, for every criteria and cursor. -/
theorem builders_observably_equivalent (types tags : List String) (after : Nat)
    (log : List StoredEvent) :
    log.filter (sqliteRowMatches types tags after)
      = log.filter (postgresRowMatches types tags after) := by
  apply List.filter_congr
  intro e _
  exact row_semantics_pointwise_eq types tags after e

theorem sqliteRowMatches_membership_invariant (ts1 ts2 gs1 gs2 : List String)
    (after : Nat) (e : StoredEvent)
    (hty : ∀ t, t ∈ ts1 ↔ t ∈ ts2) (htg : ∀ g, g ∈ gs1 ↔ g ∈ gs2) :
    sqliteRowMatches ts1 gs1 after e = sqliteRowMatches ts2 gs2 after e := by
  have hemp : ts1.isEmpty = ts2.isEmpty := by
    rw [Bool.eq_iff_iff]
    simp only [List.isEmpty_eq_true, List.eq_nil_iff_forall_not_mem]
    constructor
    · intro h a ha
      exact h a ((hty a).mpr ha)
    · intro h a ha
      exact h a ((hty a).mp ha)
  have hcont : ts1.contains e.type = ts2.contains e.type := by
    rw [Bool.eq_iff_iff]
    simp only [List.elem_eq_mem, decide_eq_true_eq]
    exact hty e.type
  have hall : gs1.all (fun t => e.tags.contains t) = gs2.all (fun t => e.tags.contains t) := by
    rw [Bool.eq_iff_iff]
    simp only [List.all_eq_true]
    constructor
    · intro h t ht
      exact h t ((htg t).mpr ht)
    · intro h t ht
      exact h t ((htg t).mp ht)
  unfold sqliteRowMatches
  rw [hemp, hcont, hall]

/-- C9: criteria accumulation is idempotent and order-insensitive as a
predicate: repeating the same `forTypes`/`forTags` calls (duplicating the
stored entries) does not change which events the compiled filter matches,
and any two criteria with the same type and tag membership match the same
events. -/
theorem criteria_accumulation_idempotent :
    (∀ (c : EventCriteria) (xs ys : List String) (after : Nat) (e : StoredEvent),
      criteriaMatches ((((c.forTypes xs).forTags ys).forTypes xs).forTags ys) after e
        = criteriaMatches ((c.forTypes xs).forTags ys) after e) ∧
    (∀ (c1 c2 : EventCriteria) (after : Nat) (e : StoredEvent),
      (∀ t, t ∈ c1.types ↔ t ∈ c2.types) → (∀ g, g ∈ c1.tags ↔ g ∈ c2.tags) →
      criteriaMatches c1 after e = criteriaMatches c2 after e) := by
  constructor
  · intro c xs ys after e
    unfold criteriaMatches
    apply sqliteRowMatches_membership_invariant
    · intro t
      simp only [EventCriteria.forTypes, EventCriteria.forTags, List.mem_append]
      tauto
    · intro g
      simp only [EventCriteria.forTypes, EventCriteria.forTags, List.mem_append]
      tauto
  · intro c1 c2 after e hty htg
    exact sqliteRowMatches_membership_invariant c1.types c2.types c1.tags c2.tags
      after e hty htg

/-- Witness for C9: duplicated accumulation on a concrete criteria and a
membership-equivalent pair with duplicates in a different order. -/
theorem criteria_accumulation_idempotent_witness :
    criteriaMatches (((((EventCriteria.mk [] []).forTypes ["T"]).forTags ["x"]).forTypes
          ["T"]).forTags ["x"]) 0 (StoredEvent.mk "a" 1 "T" "p" ["x"])
      = criteriaMatches (((EventCriteria.mk [] []).forTypes ["T"]).forTags ["x"]) 0
          (StoredEvent.mk "a" 1 "T" "p" ["x"]) ∧
    criteriaMatches (EventCriteria.mk ["T", "U"] ["x"]) 3 (StoredEvent.mk "a" 1 "T" "p" ["x"])
      = criteriaMatches (EventCriteria.mk ["U", "T", "T"] ["x", "x"]) 3
          (StoredEvent.mk "a" 1 "T" "p" ["x"]) :=
  ⟨criteria_accumulation_idempotent.1 (EventCriteria.mk [] []) ["T"] ["x"] 0
      (StoredEvent.mk "a" 1 "T" "p" ["x"]),
    criteria_accumulation_idempotent.2 (EventCriteria.mk ["T", "U"] ["x"])
      (EventCriteria.mk ["U", "T", "T"] ["x", "x"]) 3 (StoredEvent.mk "a" 1 "T" "p" ["x"])
      (by intro t; simp only [List.mem_cons, List.not_mem_nil, or_false]; tauto)
      (by intro g; simp only [List.mem_cons, List.not_mem_nil, or_false]; tauto)⟩

/-- Counterexample to C4 as stated: the legacy `SqliteQueryGenerator`
(sqlite-query-generator.ts) concatenates the caller-supplied type name
directly into the emitted SQL text — for the criteria with types `[x]` the
text literally contains the quoted value `x` and there is no parameter list
at all. -/
theorem sqlite_generator_embeds_value_in_text :
    SqliteQueryGenerator.generate ["x"] [] 0
      = "events.type IN (" ++ squote ++ "x" ++ squote ++ ")" ∧
    "x".toList <:+: (SqliteQueryGenerator.generate ["x"] [] 0).toList := by
  constructor
  · rfl
  · decide

/-- C4 (amended to the parameterized builders): for `SqliteQueryBuilder` and
`PostgresQueryBuilder` the emitted command text is independent of the
caller-supplied type names and tag values (it depends only on how many there
are and on whether a cursor is present), and every caller string appears
exactly in the flat bound-value list, in placeholder order. -/
theorem parameterized_builders_no_interpolation (types types2 tags tags2 : List String)
    (after : Nat) (hty : types.length = types2.length) (htg : tags.length = tags2.length) :
    (SqliteQueryBuilder.build types tags after).text
        = (SqliteQueryBuilder.build types2 tags2 after).text ∧
    (SqliteQueryBuilder.build types tags after).values
        = types.map SqlValue.str ++ tags.map SqlValue.str
          ++ (if after == 0 then [] else [SqlValue.nat after]) ∧
    (PostgresQueryBuilder.build types tags after).text
        = (PostgresQueryBuilder.build types2 tags2 after).text ∧
    (PostgresQueryBuilder.build types tags after).values
        = (if types.isEmpty then [] else [SqlValue.strList types])
          ++ (if tags.isEmpty then [] else [SqlValue.strList tags])
          ++ (if after == 0 then [] else [SqlValue.nat after]) := by
  have hembool : ∀ (l1 l2 : List String), l1.length = l2.length → l1.isEmpty = l2.isEmpty := by
    intro l1 l2 h
    rw [Bool.eq_iff_iff]
    simp only [List.isEmpty_eq_true]
    rw [← List.length_eq_zero, ← List.length_eq_zero, h]
  refine ⟨?_, ?_, ?_, ?_⟩
  · unfold SqliteQueryBuilder.build
    have h1 : types.map (fun _ => "?") = types2.map (fun _ => "?") := by
      rw [List.map_const', List.map_const', hty]
    have h2 : (tags.map fun _ => sqliteTagClauseText)
        = tags2.map fun _ => sqliteTagClauseText := by
      rw [List.map_const', List.map_const', htg]
    rw [hembool types types2 hty, h1, h2]
  · unfold SqliteQueryBuilder.build
    rcases types with _ | ⟨t, ts⟩
    · simp
    · simp
  · unfold PostgresQueryBuilder.build
    rw [hembool types types2 hty, hembool tags tags2 htg]
  · unfold PostgresQueryBuilder.build
    rfl

/-- Witness for C4 (amended): different caller values of equal counts give
byte-identical texts, and the values land in the parameter lists. -/
theorem parameterized_builders_no_interpolation_witness :
    (SqliteQueryBuilder.build ["a"] ["x", "y"] 5).text
        = (SqliteQueryBuilder.build ["b"] ["u", "v"] 5).text ∧
    (SqliteQueryBuilder.build ["a"] ["x", "y"] 5).values
        = ["a"].map SqlValue.str ++ ["x", "y"].map SqlValue.str
          ++ (if (5 : Nat) == 0 then [] else [SqlValue.nat 5]) ∧
    (PostgresQueryBuilder.build ["a"] ["x", "y"] 5).text
        = (PostgresQueryBuilder.build ["b"] ["u", "v"] 5).text ∧
    (PostgresQueryBuilder.build ["a"] ["x", "y"] 5).values
        = (if (["a"] : List String).isEmpty then [] else [SqlValue.strList ["a"]])
          ++ (if (["x", "y"] : List String).isEmpty then [] else [SqlValue.strList ["x", "y"]])
          ++ (if (5 : Nat) == 0 then [] else [SqlValue.nat 5]) :=
  parameterized_builders_no_interpolation ["a"] ["b"] ["x", "y"] ["u", "v"] 5 rfl rfl

theorem roundTripTags (tags : List String) (h : ∀ t ∈ tags, comma ∉ t.toList)
    (h0 : tags ≠ [""]) :
    splitTags (groupConcatTags tags) = tags := by
  cases tags with
  | nil => rfl
  | cons t rest =>
    have hgc : groupConcatTags (t :: rest)
        = some (List.intercalate [comma] ((t :: rest).map String.toList)) := rfl
    rw [hgc]
    have hx : ∀ l ∈ (t :: rest).map String.toList, comma ∉ l := by
      intro l hl
      obtain ⟨a, ha, rfl⟩ := List.mem_map.mp hl
      exact h a ha
    have hls : (t :: rest).map String.toList ≠ [] := by simp
    have hsplit := List.splitOn_intercalate ((t :: rest).map String.toList) comma hx hls
    rcases hcs : List.intercalate [comma] ((t :: rest).map String.toList) with _ | ⟨c, cs⟩
    · rw [hcs] at hsplit
      have h1 : ([[]] : List (List Char)) = t.toList :: rest.map String.toList := by
        rw [← List.map_cons]
        exact hsplit
      injection h1 with h2 h3
      have hrest : rest = [] := by
        have h4 := h3.symm
        simpa using h4
      have ht : t = "" := by
        obtain ⟨d⟩ := t
        have hd : d = [] := h2.symm
        rw [hd]
      exact absurd (by rw [ht, hrest]) h0
    · show (if (c :: cs).isEmpty then []
          else (((c :: cs).splitOn comma).map fun l => String.mk l)) = t :: rest
      simp only [List.isEmpty_cons, Bool.false_eq_true, if_false]
      rw [← hcs, hsplit, List.map_map]
      exact List.map_id _ ▸ List.map_congr_left (fun s _ => rfl)

theorem tags_of_assignPositions : ∀ (evs : List DomainEvent) (base : Nat) (r : StoredEvent),
    r ∈ assignPositions base evs → ∃ ev ∈ evs, r.tags = ev.tags := by
  intro evs
  induction evs with
  | nil => intro base r hr; cases hr
  | cons e rest ih =>
    intro base r hr
    simp only [assignPositions] at hr
    rcases List.mem_cons.mp hr with hre | hr2
    · exact ⟨e, List.mem_cons_self e rest, by rw [hre]⟩
    · obtain ⟨ev, hev, ht⟩ := ih (base + 1) r hr2
      exact ⟨ev, List.mem_cons_of_mem e hev, ht⟩

theorem insertBatch_succeeds : ∀ (batch : List DomainEvent) (s : List StoredEvent),
    (∀ ev ∈ batch, ∀ r ∈ s, ¬ nocaseId r.id = nocaseId ev.id) →
    batch.Pairwise (fun a b => ¬ nocaseId a.id = nocaseId b.id) →
    (∀ ev ∈ batch, ev.tags.Nodup) →
    insertBatch s batch = (s ++ assignPositions (maxPosition s) batch, none) := by
  intro batch
  induction batch with
  | nil => intro s _ _ _; simp [insertBatch, assignPositions]
  | cons e rest ih =>
    intro s h1 h2 h3
    have hA : ¬ (s.any (fun r => nocaseId r.id == nocaseId e.id) = true) := by
      intro hcon
      obtain ⟨r, hr, hbeq⟩ := List.any_eq_true.mp hcon
      exact h1 e (List.mem_cons_self e rest) r hr (by simpa using hbeq)
    have hie : insertEvent s e
        = Except.ok (s ++ [StoredEvent.mk e.id (maxPosition s + 1) e.type e.payload e.tags]) := by
      unfold insertEvent
      rw [if_neg hA, if_pos (h3 e (List.mem_cons_self e rest))]
    have hih := ih (s ++ [StoredEvent.mk e.id (maxPosition s + 1) e.type e.payload e.tags])
      ?h1r ((List.pairwise_cons.mp h2).2) (fun ev hev => h3 ev (List.mem_cons_of_mem e hev))
    case h1r =>
      intro ev hev r hr
      rcases List.mem_append.mp hr with hr1 | hr2
      · exact h1 ev (List.mem_cons_of_mem e hev) r hr1
      · have hre : r = StoredEvent.mk e.id (maxPosition s + 1) e.type e.payload e.tags := by
          simpa using hr2
        rw [hre]
        exact (List.pairwise_cons.mp h2).1 ev hev
    simp only [insertBatch]
    rw [hie]
    show insertBatch (s ++ [StoredEvent.mk e.id (maxPosition s + 1) e.type e.payload e.tags]) rest
        = (s ++ assignPositions (maxPosition s) (e :: rest), none)
    rw [hih, maxPosition_append]
    have hmax : Nat.max (maxPosition s)
        (StoredEvent.mk e.id (maxPosition s + 1) e.type e.payload e.tags).position
          = maxPosition s + 1 := by
      simp
    rw [hmax]
    simp [assignPositions]

/-- Counterexample to C10 as stated: an event whose only tag is the empty
string satisfies every precondition of the claim (no tag contains a comma),
the append succeeds, yet the read returns the event with an empty tags
array, not with its original tag set: the GROUP_CONCAT aggregate over the
single empty-string tag row is the empty string, which the row-mapping
conditional treats as falsy, exactly like NULL. -/
theorem sqlite_tag_roundtrip_counterexample :
    SqliteEventStore.append [] [DomainEvent.mk "a" "T" "p" [""]] AppendCondition.empty
        = Except.ok [StoredEvent.mk "a" 1 "T" "p" [""]] ∧
    (∀ t ∈ [""], comma ∉ t.toList) ∧
    SqliteEventStore.events [StoredEvent.mk "a" 1 "T" "p" [""]] (EventCriteria.mk [] [])
        = [SequencedEvent.mk "a" 1 "T" "p" []] ∧
    ([] : List String) ≠ [""] :=
  ⟨rfl, by decide, rfl, by decide⟩

/-- C10 (amended): on the SQLite store, for a batch whose events have
pairwise distinct ids (case-insensitively), per-event duplicate-free tags,
no comma inside any tag, and no tag list that is exactly the single empty
string, appending to the empty store succeeds and a read with the empty
criteria returns every event carrying exactly its original tags (an empty
tag list comes back as the empty array); the comma precondition is needed
because the read splits a comma-joined aggregate: a stored tag that contains
a comma comes back as several tags, and an event whose only tag is the empty
string comes back with no tags at all. -/
theorem sqlite_tag_roundtrip (batch : List DomainEvent)
    (hids : batch.Pairwise (fun a b => ¬ nocaseId a.id = nocaseId b.id))
    (hnodup : ∀ ev ∈ batch, ev.tags.Nodup)
    (hne : ∀ ev ∈ batch, ev.tags ≠ [""])
    (hcomma : ∀ ev ∈ batch, ∀ t ∈ ev.tags, comma ∉ t.toList) :
    SqliteEventStore.append [] batch AppendCondition.empty
        = Except.ok (assignPositions 0 batch) ∧
    SqliteEventStore.events (assignPositions 0 batch) (EventCriteria.mk [] [])
        = (assignPositions 0 batch).map sequencedOf ∧
    SqliteEventStore.readEvent (StoredEvent.mk "i" 1 "T" "p" ["a,b"])
        = SequencedEvent.mk "i" 1 "T" "p" ["a", "b"] := by
  have hins := insertBatch_succeeds batch []
    (fun ev _ r hr => absurd hr (List.not_mem_nil r)) hids hnodup
  refine ⟨?_, ?_, ?_⟩
  · unfold SqliteEventStore.append
    rw [if_neg (by decide), hins]
    rfl
  · unfold SqliteEventStore.events
    have hf : List.filter (sqliteRowMatches (EventCriteria.mk [] []).types
        (EventCriteria.mk [] []).tags 0) (assignPositions 0 batch)
        = assignPositions 0 batch :=
      List.filter_eq_self.mpr (fun a _ => rfl)
    rw [hf]
    apply List.map_congr_left
    intro r hr
    obtain ⟨ev, hev, ht⟩ := tags_of_assignPositions batch 0 r hr
    unfold SqliteEventStore.readEvent sequencedOf
    have hne2 : r.tags ≠ [""] := by
      rw [ht]
      exact hne ev hev
    have htags : splitTags (groupConcatTags r.tags) = r.tags :=
      roundTripTags r.tags (fun t htm => hcomma ev hev t (ht ▸ htm)) hne2
    rw [htags]
  · rfl

/-- Witness for C10: a two-event batch, the second event with no tags. -/
theorem sqlite_tag_roundtrip_witness :
    SqliteEventStore.append []
        [DomainEvent.mk "a" "T" "p" ["x", "y"], DomainEvent.mk "b" "U" "q" []]
        AppendCondition.empty
      = Except.ok (assignPositions 0
          [DomainEvent.mk "a" "T" "p" ["x", "y"], DomainEvent.mk "b" "U" "q" []]) ∧
    SqliteEventStore.events
        (assignPositions 0
          [DomainEvent.mk "a" "T" "p" ["x", "y"], DomainEvent.mk "b" "U" "q" []])
        (EventCriteria.mk [] [])
      = (assignPositions 0
          [DomainEvent.mk "a" "T" "p" ["x", "y"], DomainEvent.mk "b" "U" "q" []]).map
            sequencedOf ∧
    SqliteEventStore.readEvent (StoredEvent.mk "i" 1 "T" "p" ["a,b"])
      = SequencedEvent.mk "i" 1 "T" "p" ["a", "b"] :=
  sqlite_tag_roundtrip
    [DomainEvent.mk "a" "T" "p" ["x", "y"], DomainEvent.mk "b" "U" "q" []]
    (by decide) (by decide) (by decide) (by decide)

end Turtal
